import Mathlib

/-!
Verification of the per-turn orchestration core of the Poly welfare-policy
assistant: the session lifecycle controller (`session_orchestrator.py`), the
structured context extractor (`info_extractor.py`) and the retrieval planner
(`retrieval_planner.py`), shallowly embedded as executable Lean functions.

Python strings are modelled as `List Char`, Python dynamic values by small
inductive universes covering the shapes the code branches on, fallible
operations (`dict(...)` conversion, `int(...)` coercion, external calls) by
`Except`.  External collaborators that are imported by the nodes but whose
implementation lives outside this tree (the OpenAI call, the embedding model,
the pgvector query, `merge_utils`, the DB fetchers) are passed in as function
parameters, so theorems quantify over their behaviour.
-/

namespace Poly

abbrev Str := List Char

/-- Python whitespace characters recognised by `str.strip()` (ASCII range,
which is all the code ever feeds it). -/
def pyIsSpace (c : Char) : Bool :=
  c = ' ' ∨ c = '\t' ∨ c = '\n' ∨ c = '\r' ∨ c = '\x0b' ∨ c = '\x0c'

/-- Python `s.strip()`. -/
def pyStrip (s : Str) : Str :=
  ((s.dropWhile pyIsSpace).reverse.dropWhile pyIsSpace).reverse

/-- Python `s.lower()` restricted to the characters that can appear in the
tokens below (Hangul syllables and ASCII alphanumerics); on those it agrees
with ASCII lowercasing. -/
def pyLower (s : Str) : Str := s.map Char.toLower

/-- The character class of the regex `[가-힣A-Za-z0-9]` in
`retrieval_planner.extract_keywords`. -/
def isWordChar (c : Char) : Bool :=
  ('가' ≤ c ∧ c ≤ '힣') ∨ ('A' ≤ c ∧ c ≤ 'Z') ∨ ('a' ≤ c ∧ c ≤ 'z') ∨ ('0' ≤ c ∧ c ≤ '9')

/-- The regex scan `re.findall(r"[가-힣A-Za-z0-9]+", text)`: the maximal runs of word
characters, fuelled so that it is structurally recursive (the fuel
`text.length` always suffices). -/
def tokenizeAux : Nat → Str → List Str
  | 0, _ => []
  | _, [] => []
  | fuel + 1, c :: rest =>
    if isWordChar c then
      (c :: rest.takeWhile isWordChar) :: tokenizeAux fuel (rest.dropWhile isWordChar)
    else
      tokenizeAux fuel rest

def tokenize (s : Str) : List Str := tokenizeAux s.length s

/-- The stopword set of `extract_keywords`. -/
def kwStop : List Str :=
  ["그리고", "하지만", "근데", "가능", "문의", "신청", "여부", "있나요", "해당"].map String.toList

/-- The filtering loop of `extract_keywords`: lowercase each token, keep
tokens of length ≥ 2 that are not stopwords, deduplicate preserving first-seen
order, and stop once `max_k` keywords have been collected. -/
def kwLoop (maxK : Nat) : List Str → List Str → List Str → List Str
  | [], _, out => out
  | t :: ts, seen, out =>
    let tl := pyLower t
    if 2 ≤ tl.length ∧ tl ∉ kwStop then
      if tl ∉ seen then
        let out' := out ++ [tl]
        if maxK ≤ out'.length then out' else kwLoop maxK ts (tl :: seen) out'
      else kwLoop maxK ts seen out
    else kwLoop maxK ts seen out

/-- Embedding of `retrieval_planner.extract_keywords`. -/
def extract_keywords (text : Str) (maxK : Nat) : List Str :=
  if text = [] then [] else kwLoop maxK (tokenize text) [] []

/-! ## Structured context extractor (`info_extractor.py`) -/

/-- Schema `ProfileField` of the LLM output schema: `{value, confidence}` with the
value optional (`null` allowed). -/
structure PField where
  value : Option Str
  confidence : ℚ
deriving DecidableEq

/-- Schema `ExtractedProfile`: the ten optional profile fields of the extraction
schema, in source order. -/
structure ExtractedProfile where
  age : Option PField
  birth_year : Option PField
  sex : Option PField
  region_gu : Option PField
  income_median_ratio : Option PField
  basic_benefit_type : Option PField
  nhis_qualification : Option PField
  disability_grade : Option PField
  ltci_grade : Option PField
  pregnancy_status : Option PField
deriving DecidableEq

/-- Schema `Triple` of the extraction schema. -/
structure TripleR where
  subject : Str
  predicate : Str
  object : Str
  code_system : Option Str
  code : Option Str
  confidence : ℚ
deriving DecidableEq

/-- Schema `ExtractedCollection`. -/
structure ExtractedCollection where
  triples : List TripleR
deriving DecidableEq

/-- Schema `ExtractResult`: the schema-validated LLM response. -/
structure ExtractResult where
  profile : ExtractedProfile
  collection : ExtractedCollection
deriving DecidableEq

/-- A value stored in the `ephemeral_profile` dict: either the
`{"value": …, "confidence": …}` shape written by the merge, or arbitrary
pre-existing content (`otherVal`) that the merge copies through untouched. -/
inductive PEntry
  | fieldVal (value : Str) (confidence : ℚ)
  | otherVal (tag : Nat)
deriving DecidableEq

/-- The `ephemeral_profile` overlay: a Python dict, i.e. an insertion-ordered
association list with unique keys. -/
abbrev ProfDict := List (Str × PEntry)

/-- Python `d[k] = v` on an insertion-ordered dict: update the existing
binding in place, else append a new binding. -/
def dictSet : ProfDict → Str → PEntry → ProfDict
  | [], k, v => [(k, v)]
  | (k', v') :: rest, k, v =>
    if k' = k then (k, v) :: rest else (k', v') :: dictSet rest k v

/-- Dict lookup. -/
def dlookup : ProfDict → Str → Option PEntry
  | [], _ => none
  | (k', v') :: rest, k => if k' = k then some v' else dlookup rest k

/-- Helper `set_field` inside `_merge_ephemeral_profile`: skip absent fields and
fields whose value is `None` or `""`, otherwise overwrite. -/
def set_field (d : ProfDict) (name : Str) (field : Option PField) : ProfDict :=
  match field with
  | none => d
  | some f =>
    match f.value with
    | none => d
    | some v => if v = [] then d else dictSet d name (.fieldVal v f.confidence)

/-- The `(name, field)` pairs written by `_merge_ephemeral_profile`, in source
order. -/
def fieldsOf (e : ExtractedProfile) : List (Str × Option PField) :=
  [("age".toList, e.age), ("birth_year".toList, e.birth_year), ("sex".toList, e.sex),
   ("region_gu".toList, e.region_gu), ("income_median_ratio".toList, e.income_median_ratio),
   ("basic_benefit_type".toList, e.basic_benefit_type),
   ("nhis_qualification".toList, e.nhis_qualification),
   ("disability_grade".toList, e.disability_grade), ("ltci_grade".toList, e.ltci_grade),
   ("pregnancy_status".toList, e.pregnancy_status)]

/-- The sequence of `set_field` calls in `_merge_ephemeral_profile`. -/
def applyFields (d : ProfDict) (fs : List (Str × Option PField)) : ProfDict :=
  fs.foldl (fun d nf => set_field d nf.1 nf.2) d

/-- Embedding of `info_extractor._merge_ephemeral_profile`. -/
def mergeEphemeralProfile (old : ProfDict) (extracted : ExtractedProfile)
    (save_profile : Bool) : ProfDict :=
  if !save_profile then old
  else applyFields old (fieldsOf extracted)

/-- A Python value sitting in `state["ephemeral_collection"]`: absent/`None`,
a dict (with an optional `"triples"` list and possibly other keys), a bare
list of triples, or some other (truthy, non-dict, non-list) value. -/
inductive CollVal
  | pyNone
  | pyDict (triples : Option (List TripleR)) (hasOtherKeys : Bool)
  | pyList (items : List TripleR)
  | pyOther (tag : Nat)
deriving DecidableEq

/-- Python truthiness of a `CollVal`. -/
def CollVal.truthy : CollVal → Bool
  | .pyNone => false
  | .pyDict t k => t.isSome || k
  | .pyList l => !l.isEmpty
  | .pyOther _ => true

/-- The normalisation at the top of `_merge_ephemeral_collection`:
`list(old.get("triples") or [])` for dicts, `list(old)` for lists, `[]`
otherwise. -/
def normTriples : CollVal → List TripleR
  | .pyDict t _ => t.getD []
  | .pyList l => l
  | _ => []

/-- The `{"triples": …}` dict returned by `_merge_ephemeral_collection`. -/
structure CollDict where
  triples : List TripleR
deriving DecidableEq

/-- Embedding of `info_extractor._merge_ephemeral_collection`.  The Pydantic → dict
conversion of each new triple is the identity on our `TripleR` records. -/
def mergeEphemeralCollection (old : CollVal) (extracted : ExtractedCollection)
    (save_collection : Bool) : CollDict :=
  let existing_triples := normTriples old
  if !save_collection then ⟨existing_triples⟩
  else ⟨existing_triples ++ extracted.triples⟩

/-- Python `x or {"triples": []}` applied to an ephemeral-collection value. -/
def collOrDefault (v : CollVal) : CollVal :=
  if v.truthy then v else .pyDict (some []) false

/-- Python `dict(x)`: copies a dict, raises `TypeError` on a (truthy,
non-empty) list of triple dicts or any other non-dict value. -/
def pyDictCopy (v : CollVal) : Except Str CollVal :=
  match v with
  | .pyDict t k => .ok (.pyDict t k)
  | _ => .error "TypeError: cannot convert to dict".toList

/-- The expression `dict(state.get("ephemeral_collection") or {"triples": []})` as it appears
in the no-op and error returns of `extract`. -/
def dictOfCollOrDefault (v : CollVal) : Except Str CollVal :=
  pyDictCopy (collOrDefault v)

/-- A trace message (`role`, `content`, `created_at`, and the `meta["error"]`
entry when present; the remaining meta fields carry no information used by any
claim). -/
structure Message where
  role : Str
  content : Str
  created_at : Str
  meta_error : Option Str
deriving DecidableEq

/-- The router decision fields read by `extract` (absent keys read as
falsy). -/
structure RouterDec where
  save_profile : Bool
  save_collection : Bool
deriving DecidableEq

/-- The slice of the turn state read by `extract`. -/
structure ExtState where
  user_input : Option Str
  router : Option RouterDec
  ephemeral_profile : Option ProfDict
  ephemeral_collection : CollVal
  messages : List Message
deriving DecidableEq

/-- The `InfoExtractorOutput` dict. -/
structure ExtractOut where
  ephemeral_profile : ProfDict
  ephemeral_collection : CollVal
  messages : List Message
deriving DecidableEq

/-- Embedding of `info_extractor.extract`, parametrised by the structured-extraction call
`llm` (`_call_info_llm`: network error, malformed JSON and schema-validation
failure are all `.error`) and the timestamp `nowIso`. -/
def extract (llm : Str → Except Str ExtractResult) (nowIso : Str)
    (st : ExtState) : Except Str ExtractOut :=
  let text := pyStrip (st.user_input.getD [])
  let save_profile := (st.router.map RouterDec.save_profile).getD false
  let save_collection := (st.router.map RouterDec.save_collection).getD false
  if !save_profile && !save_collection then
    match dictOfCollOrDefault st.ephemeral_collection with
    | .error e => .error e
    | .ok coll =>
      .ok ⟨st.ephemeral_profile.getD [], coll,
        st.messages ++
          [⟨"tool".toList,
            "[info_extractor] skip (save_profile=False, save_collection=False)".toList,
            nowIso, none⟩]⟩
  else if text = [] then
    match dictOfCollOrDefault st.ephemeral_collection with
    | .error e => .error e
    | .ok coll =>
      .ok ⟨st.ephemeral_profile.getD [], coll,
        st.messages ++
          [⟨"tool".toList, "[info_extractor] empty user_input; nothing extracted".toList,
            nowIso, none⟩]⟩
  else
    match llm text with
    | .ok result =>
      let old_profile := st.ephemeral_profile.getD []
      let old_collection := collOrDefault st.ephemeral_collection
      let merged_profile := mergeEphemeralProfile old_profile result.profile save_profile
      let merged_collection :=
        mergeEphemeralCollection old_collection result.collection save_collection
      .ok ⟨merged_profile, .pyDict (some merged_collection.triples) false,
        st.messages ++
          [⟨"tool".toList, "[info_extractor] extracted profile/collection".toList,
            nowIso, none⟩]⟩
    | .error e =>
      match dictOfCollOrDefault st.ephemeral_collection with
      | .error e2 => .error e2
      | .ok coll =>
        .ok ⟨st.ephemeral_profile.getD [], coll,
          st.messages ++
            [⟨"tool".toList, "[info_extractor] error; keep previous state".toList,
              nowIso, some e⟩]⟩

/-! ## Session lifecycle controller (`session_orchestrator.py`) -/

/-- A Python value found in the scalar state slots the controller reads. -/
inductive PyV
  | vNone
  | vInt (n : Int)
  | vStr (s : Str)
deriving DecidableEq

/-- Python truthiness. -/
def PyV.truthy : PyV → Bool
  | .vNone => false
  | .vInt n => n ≠ 0
  | .vStr s => s ≠ []

/-- Python `x or d`. -/
def pyOr (v d : PyV) : PyV := if v.truthy then v else d

def isDigitCh (c : Char) : Bool := '0' ≤ c ∧ c ≤ '9'

/-- Validate a digit string with Python's underscore rule (underscores only
directly between digits) and strip the underscores. -/
def unUnder : Str → Option Str
  | [] => some []
  | [c] => if isDigitCh c then some [c] else none
  | c :: '_' :: rest =>
    if isDigitCh c then
      match rest with
      | [] => none
      | d :: _ => if isDigitCh d then (unUnder rest).map (fun r => c :: r) else none
    else none
  | c :: rest => if isDigitCh c then (unUnder rest).map (fun r => c :: r) else none

def digitsToNat (acc : Nat) : Str → Nat
  | [] => acc
  | c :: rest => digitsToNat (acc * 10 + (c.toNat - '0'.toNat)) rest

/-- Python `int(s)` on a string: strip whitespace, optional sign, decimal
digits (with legal underscores); anything else raises `ValueError`. -/
def pyIntOfStr (s : Str) : Except Str Int :=
  let t := pyStrip s
  let sb : Int × Str :=
    match t with
    | '+' :: rest => (1, rest)
    | '-' :: rest => (-1, rest)
    | _ => (1, t)
  match unUnder sb.2 with
  | none => .error "ValueError: invalid literal for int()".toList
  | some [] => .error "ValueError: invalid literal for int()".toList
  | some ds => .ok (sb.1 * (digitsToNat 0 ds : Nat))

/-- Python `int(x)` on the value produced by `turn_count or 0`. -/
def pyIntCoerce : PyV → Except Str Int
  | .vInt n => .ok n
  | .vStr s => pyIntOfStr s
  | .vNone => .error "TypeError: int() argument".toList

/-- Embedding of `_parse_iso`, parametrised by the underlying ISO-8601 parser (the
composite of the `"Z" → "+00:00"` replacement and `datetime.fromisoformat`);
falsy input gives `None`, a non-string raises inside the `try` and is caught,
and a parser failure is caught — all three yield `None`. -/
def parse_iso (parser : Str → Except Str Int) (v : PyV) : Option Int :=
  if !v.truthy then none
  else
    match v with
    | .vStr s => (parser s).toOption
    | _ => none

/-- The `started_at` bookkeeping of `orchestrate`: keep a parseable string and
its parsed instant, otherwise re-initialise to now (returning whether the
initialisation log line is emitted). -/
def startedInfo (parser : Str → Except Str Int) (nowT : Int) (now_iso : Str)
    (v : PyV) : Int × Str × Bool :=
  match v, parse_iso parser v with
  | .vStr s, some t => (t, s, false)
  | _, _ => (nowT, now_iso, true)

/-- The environment-configured limits. -/
structure OrchConfig where
  idle_timeout_sec : Int
  max_turns : Int
  max_duration_sec : Int
deriving DecidableEq

/-- The slice of the turn state read by `orchestrate`. -/
structure OrchState where
  session_id : PyV
  started_at : PyV
  last_activity_at : PyV
  turn_count : PyV
  messages : List Message
deriving DecidableEq

/-- Output record `SessionOrchestratorOutput`. -/
structure OrchOut where
  session_id : Str
  started_at : Str
  last_activity_at : Str
  turn_count : Int
  end_session : Bool
  messages : List Message
deriving DecidableEq

/-- Embedding of `session_orchestrator.orchestrate`, parametrised by the current instant
`nowT` / its rendering `now_iso`, the generated session id `gen_id`, and the
ISO parser.  `last_activity_at` is parsed in the source but the parse result
is dead: lines 127–129 overwrite it with now unconditionally. -/
def orchestrate (cfg : OrchConfig) (nowT : Int) (now_iso gen_id : Str)
    (parser : Str → Except Str Int) (st : OrchState) : Except Str OrchOut :=
  let msgs0 := st.messages
  let sidRes : Except Str Str :=
    match pyOr st.session_id (.vStr []) with
    | .vStr s => .ok (pyStrip s)
    | _ => .error "AttributeError: no attribute strip".toList
  match sidRes with
  | .error e => .error e
  | .ok sid0 =>
    let sidAndMsgs :=
      if sid0 = [] then
        (gen_id, msgs0 ++
          [⟨"tool".toList, "[session_orchestrator] session_id generated".toList,
            now_iso, none⟩])
      else (sid0, msgs0)
    match pyIntCoerce (pyOr st.turn_count (.vInt 0)) with
    | .error e => .error e
    | .ok tc0 =>
      let si := startedInfo parser nowT now_iso st.started_at
      let msgs2 :=
        if si.2.2 then
          sidAndMsgs.2 ++
            [⟨"tool".toList, "[session_orchestrator] started_at initialized".toList,
              now_iso, none⟩]
        else sidAndMsgs.2
      let tc := tc0 + 1
      let duration := nowT - si.1
      let end_reasons : List Str :=
        (if cfg.max_turns ≤ tc then ["max_turns reached".toList] else []) ++
          (if cfg.max_duration_sec ≤ duration then ["max_duration reached".toList] else [])
      let end_session := !end_reasons.isEmpty
      let msgs3 :=
        if end_session then
          msgs2 ++ [⟨"tool".toList, "[session_orchestrator] end_session=True".toList,
            now_iso, none⟩]
        else
          msgs2 ++ [⟨"tool".toList, "[session_orchestrator] tick".toList, now_iso, none⟩]
      .ok ⟨sidAndMsgs.1, si.2.1, now_iso, tc, end_session, msgs3⟩

/-! ## Retrieval planner (`retrieval_planner.py`) -/

/-- A value stored under a profile key as seen by `_sanitize_region`:
`None`, a string, or a `{"value": …}` wrapper. -/
inductive RegionV
  | noneV
  | strV (s : Str)
  | dictV (value : Option Str)
deriving DecidableEq

/-- Embedding of `retrieval_planner._sanitize_region`. -/
def sanitizeRegion (region_value : Option RegionV) : Option Str :=
  match region_value with
  | none => none
  | some .noneV => none
  | some (.dictV value) =>
    match value with
    | none => none
    | some s => let t := pyStrip s; if t = [] then none else some t
  | some (.strV s) => let t := pyStrip s; if t = [] then none else some t

/-- The merged profile, as consumed by the region-filter derivation. -/
abbrev ProfCtx := List (Str × RegionV)

def ctxLookup : ProfCtx → Str → Option RegionV
  | [], _ => none
  | (k', v') :: rest, k => if k' = k then some v' else ctxLookup rest k

/-- The region-filter derivation in `_hybrid_search_documents`: try
`residency_sgg_code`, fall back to `region_gu` when the key is absent or its
value is `None`, then sanitize; an empty/falsy merged profile leaves the
filter absent. -/
def regionFilterOf (merged_profile : Option ProfCtx) : Option Str :=
  match merged_profile with
  | none => none
  | some mp =>
    if mp = [] then none
    else
      let rv0 : Option RegionV :=
        match ctxLookup mp "residency_sgg_code".toList with
        | some .noneV => none
        | some v => some v
        | none => none
      let rv : Option RegionV :=
        match rv0 with
        | some v => some v
        | none => ctxLookup mp "region_gu".toList
      sanitizeRegion rv

/-- A row of the `documents ⋈ embeddings` similarity query: `d.id` is a
`BIGINT`; the text columns are nullable; `similarity` is `1 - cosine_distance`
(exact rationals stand in for the floats, preserving order). -/
structure Row where
  id : Int
  title : Option Str
  requirements : Option Str
  benefits : Option Str
  region : Option Str
  url : Option Str
  similarity : Option ℚ
deriving DecidableEq

/-- One entry of the intermediate `results` list. -/
structure DocResult where
  doc_id : Int
  title : Option Str
  requirements : Option Str
  benefits : Option Str
  region : Option Str
  url : Option Str
  similarity : Option ℚ
  snippet : Str
deriving DecidableEq

/-- Truthiness of `Optional[str]`. -/
def isTruthyStr : Option Str → Bool
  | some s => !s.isEmpty
  | none => false

/-- Row post-processing: strip the text columns (a non-string column value is
`None` in our universe) and assemble the display snippet from the present
sections in fixed order. -/
def resultOfRow (r : Row) : DocResult :=
  let requirements := r.requirements.map pyStrip
  let benefits := r.benefits.map pyStrip
  let region := r.region.map pyStrip
  let url := r.url.map pyStrip
  let snippet_lines : List Str :=
    (if isTruthyStr requirements then ["[신청 요건]\n".toList ++ requirements.getD []] else []) ++
      (if isTruthyStr benefits then ["[지원 내용]\n".toList ++ benefits.getD []] else [])
  let snippet_text := pyStrip (List.intercalate "\n\n".toList snippet_lines)
  ⟨r.id, r.title.map pyStrip, requirements, benefits, region, url, r.similarity, snippet_text⟩

/-- The comparator of the defensive re-sort
`results.sort(key=lambda x: (x["similarity"] is not None, x["similarity"]), reverse=True)`:
`a` may precede `b` iff `key b ≤ key a` (scored entries first, by similarity
descending; the second key component is never compared when one side is
`None`). -/
def simKeyLe (a b : DocResult) : Bool :=
  match a.similarity, b.similarity with
  | some x, some y => decide (y ≤ x)
  | some _, none => true
  | none, some _ => false
  | none, none => true

/-- The re-sort: a stable sort under `simKeyLe`, as Python's stable
`list.sort(..., reverse=True)` is. -/
def sortResults (l : List DocResult) : List DocResult := l.mergeSort simKeyLe

/-- A snippet's `doc_id`: a database `BIGINT` id, or the synthetic system
id of the injected persistence notice. -/
inductive DocId
  | dbId (n : Int)
  | sysId (s : Str)
deriving DecidableEq

/-- One `rag_snippets` entry; keys that the code only sets conditionally are
`Option` (`none` = key absent), `source` is absent on the injected snippet. -/
structure Snippet where
  doc_id : DocId
  title : Option Str
  source : Option Str
  snippet : Str
  score : Option ℚ
  region : Option Str
  url : Option Str
  requirements : Option Str
  benefits : Option Str
deriving DecidableEq

/-- The chain `"snippet": r["snippet"] or r["benefits"] or r["requirements"] or ""`. -/
def snippetTextOf (r : DocResult) : Str :=
  if r.snippet ≠ [] then r.snippet
  else if isTruthyStr r.benefits then r.benefits.getD []
  else if isTruthyStr r.requirements then r.requirements.getD []
  else []

/-- Reformatting one sorted result into a `rag_snippets` entry. -/
def snippetOfResult (r : DocResult) : Snippet where
  doc_id := .dbId r.doc_id
  title := r.title
  source := some (if isTruthyStr r.region then r.region.getD [] else "policy_db".toList)
  snippet := snippetTextOf r
  score := r.similarity
  region := if isTruthyStr r.region then r.region else none
  url := if isTruthyStr r.url then r.url else none
  requirements := if isTruthyStr r.requirements then r.requirements else none
  benefits := if isTruthyStr r.benefits then r.benefits else none

/-- The two external calls made by `_hybrid_search_documents`: the embedding
model (`_embed_text`; the vector itself only flows into the SQL literal, so it
is erased to `Unit`) and the pgvector query (given region filter and `top_k`,
the rows it returns — or the connection error it raises). -/
structure SearchEnv where
  embed : Str → Except Str Unit
  db : Option Str → Nat → Except Str (List Row)

/-- Embedding of `retrieval_planner._hybrid_search_documents`. -/
def hybridSearchDocuments (env : SearchEnv) (query_text : Str)
    (merged_profile : Option ProfCtx) (top_k : Nat) :
    Except Str (List Snippet × List Str) :=
  let qt := pyStrip query_text
  if qt = [] then .ok ([], [])
  else
    let keywords := extract_keywords qt 8
    let region_filter := regionFilterOf merged_profile
    match env.embed qt with
    | .error _ => .ok ([], keywords)
    | .ok _ =>
      match env.db region_filter top_k with
      | .error e => .error e
      | .ok rows =>
        let results := sortResults (rows.map resultOfRow)
        .ok (results.map snippetOfResult, keywords)

/-- The router argument of `_decide_use_rag`: `None`, or a dict that may or
may not carry a (boolean) `use_rag` key plus other keys. -/
inductive RouterArg
  | absent
  | dict (use_rag : Option Bool) (hasOtherKeys : Bool)
deriving DecidableEq

def RouterArg.truthy : RouterArg → Bool
  | .absent => false
  | .dict u k => u.isSome || k

/-- The hard-coded trigger words of the `use_rag` fallback heuristic. -/
def ragTriggerWords : List Str :=
  ["자격", "지원", "혜택", "대상", "요건", "급여", "본인부담"].map String.toList

/-- Embedding of `retrieval_planner._decide_use_rag`. -/
def decideUseRag (router : RouterArg) (query_text : Str) : Bool :=
  if !router.truthy then true
  else
    match router with
    | .dict (some b) _ => b
    | _ =>
      let text := pyLower query_text
      if ragTriggerWords.any (fun k => decide (k <:+: text)) then true else false

/-- The fixed save-intent words checked by `plan`. -/
def saveKeywords : List Str := ["저장", "보관", "기록"].map String.toList

/-- The synthetic conversation-persistence advisory snippet injected by
`plan`. -/
def persistSnippet : Snippet where
  doc_id := .sysId "system:conversation_persist".toList
  title := some "대화 저장 안내".toList
  source := none
  snippet := "대화를 종료하면 저장 파이프라인이 자동 실행되어 대화 내용이 보관됩니다.".toList
  score := some 1
  region := none
  url := none
  requirements := none
  benefits := none

/-- External collaborators of `plan`: the DB fetchers (which may raise) and
the merge helpers of `app.langgraph.utils.merge_utils`, which are imported
from outside this tree and therefore kept abstract — every theorem below
quantifies over them. -/
structure PlanEnv where
  search : SearchEnv
  fetch_profile : Int → Except Str (Option ProfCtx)
  fetch_collections : Int → Except Str (Option CollVal)
  merge_profile : Option ProfCtx → Option ProfCtx → Option ProfCtx
  merge_collection : Option CollVal → Option CollVal → Option CollVal

/-- The slice of the turn state read by `plan`. -/
structure PlanState where
  profile_id : Option Int
  user_input : Option Str
  router : RouterArg
  ephemeral_profile : Option ProfCtx
  ephemeral_collection : Option CollVal
  end_session : Bool
deriving DecidableEq

/-- The `state["retrieval"]` output object. -/
structure RetrievalOut where
  used_rag : Bool
  profile_ctx : Option ProfCtx
  collection_ctx : Option CollVal
  rag_snippets : List Snippet
  keywords : List Str
deriving DecidableEq

/-- The DB fetch step of `plan` (each fetch failure is caught and leaves the
corresponding side `None`). -/
def planDbProfile (env : PlanEnv) (st : PlanState) : Option ProfCtx :=
  match st.profile_id with
  | none => none
  | some pid => match env.fetch_profile pid with | .ok v => v | .error _ => none

def planDbCollection (env : PlanEnv) (st : PlanState) : Option CollVal :=
  match st.profile_id with
  | none => none
  | some pid => match env.fetch_collections pid with | .ok v => v | .error _ => none

def planMergedProfile (env : PlanEnv) (st : PlanState) : Option ProfCtx :=
  env.merge_profile (planDbProfile env st) st.ephemeral_profile

/-- Lines 338–354 of `plan`: the retrieval attempt producing `rag_docs` and
`keywords` before the save-notice injection; a raise out of
`_hybrid_search_documents` is caught and degrades to no snippets. -/
def planRagDocs (env : PlanEnv) (st : PlanState) : List Snippet × List Str :=
  let query_text := st.user_input.getD []
  let use_rag := decideUseRag st.router query_text
  if use_rag ∧ query_text ≠ [] then
    match hybridSearchDocuments env.search query_text (planMergedProfile env st) 8 with
    | .ok dk => dk
    | .error _ => ([], extract_keywords query_text 8)
  else ([], extract_keywords query_text 8)

/-- Embedding of `retrieval_planner.plan`. -/
def plan (env : PlanEnv) (st : PlanState) : RetrievalOut :=
  let query_text := st.user_input.getD []
  let merged_profile := planMergedProfile env st
  let merged_collection := env.merge_collection (planDbCollection env st) st.ephemeral_collection
  let use_rag := decideUseRag st.router query_text
  let dk := planRagDocs env st
  let end_requested := st.end_session
  let refers_to_save := saveKeywords.any (fun k => decide (k <:+: query_text))
  let rag_docs :=
    if end_requested || refers_to_save then dk.1 ++ [persistSnippet] else dk.1
  ⟨use_rag, merged_profile, merged_collection, rag_docs, dk.2⟩

/-- The descending-score relation realised by the defensive re-sort: a scored
entry precedes every unscored one, scored entries descend, unscored entries
are mutually unordered (sorted last). -/
def scoreBefore : Option ℚ → Option ℚ → Prop
  | some x, some y => y ≤ x
  | some _, none => True
  | none, some _ => False
  | none, none => True

end Poly

/-! ## Theorems -/

namespace Poly

theorem dlookup_dictSet_self (d : ProfDict) (k : Str) (v : PEntry) :
    dlookup (dictSet d k v) k = some v := by
  induction d with
  | nil => simp [dictSet, dlookup]
  | cons hd rest ih =>
    obtain ⟨k', v'⟩ := hd
    by_cases hk : k' = k
    · subst hk; simp [dictSet, dlookup]
    · simp [dictSet, dlookup, hk, ih]

theorem dlookup_dictSet_ne (d : ProfDict) (k k' : Str) (v : PEntry) (h : k' ≠ k) :
    dlookup (dictSet d k v) k' = dlookup d k' := by
  induction d with
  | nil => simp [dictSet, dlookup, Ne.symm h]
  | cons hd rest ih =>
    obtain ⟨k0, v0⟩ := hd
    by_cases hk : k0 = k
    · subst hk; simp [dictSet, dlookup, Ne.symm h]
    · simp [dictSet, dlookup, hk, ih]

theorem dictSet_self_of_dlookup (d : ProfDict) (k : Str) (v : PEntry)
    (h : dlookup d k = some v) : dictSet d k v = d := by
  induction d with
  | nil => simp [dlookup] at h
  | cons hd rest ih =>
    obtain ⟨k0, v0⟩ := hd
    by_cases hk : k0 = k
    · subst hk
      simp [dlookup] at h
      simp [dictSet, h]
    · simp [dlookup, hk] at h
      simp [dictSet, hk, ih h]

theorem dlookup_set_field_ne (d : ProfDict) (n m : Str) (f : Option PField) (h : n ≠ m) :
    dlookup (set_field d m f) n = dlookup d n := by
  cases f with
  | none => rfl
  | some g =>
    cases hv : g.value with
    | none => simp [set_field, hv]
    | some v =>
      by_cases hve : v = []
      · simp [set_field, hv, hve]
      · simp [set_field, hv, hve, dlookup_dictSet_ne _ _ _ _ h]

theorem dlookup_applyFields_not_mem (fs : List (Str × Option PField)) (d : ProfDict) (n : Str)
    (h : n ∉ fs.map Prod.fst) :
    dlookup (applyFields d fs) n = dlookup d n := by
  induction fs generalizing d with
  | nil => rfl
  | cons hd tl ih =>
    simp only [List.map_cons, List.mem_cons, not_or] at h
    have hstep : applyFields d (hd :: tl) = applyFields (set_field d hd.1 hd.2) tl := rfl
    rw [hstep, ih _ h.2, dlookup_set_field_ne _ _ _ _ h.1]

theorem set_field_applyFields_absorb (d : ProfDict) (n : Str) (f : Option PField)
    (fs : List (Str × Option PField)) (h : n ∉ fs.map Prod.fst) :
    set_field (applyFields (set_field d n f) fs) n f = applyFields (set_field d n f) fs := by
  cases f with
  | none => rfl
  | some g =>
    cases hv : g.value with
    | none => simp [set_field, hv]
    | some v =>
      by_cases hve : v = []
      · simp [set_field, hv, hve]
      · have h1 : dlookup (set_field d n (some g)) n = some (.fieldVal v g.confidence) := by
          simp [set_field, hv, hve, dlookup_dictSet_self]
        have h2 : dlookup (applyFields (set_field d n (some g)) fs) n
            = some (.fieldVal v g.confidence) := by
          rw [dlookup_applyFields_not_mem _ _ _ h]; exact h1
        have heff : ∀ d' : ProfDict,
            set_field d' n (some g) = dictSet d' n (.fieldVal v g.confidence) := by
          intro d'; simp [set_field, hv, hve]
        rw [heff (applyFields (set_field d n (some g)) fs)]
        exact dictSet_self_of_dlookup _ _ _ h2

theorem applyFields_idem (fs : List (Str × Option PField)) (hnd : (fs.map Prod.fst).Nodup) :
    ∀ d, applyFields (applyFields d fs) fs = applyFields d fs := by
  induction fs with
  | nil => intro d; rfl
  | cons hd tl ih =>
    intro d
    obtain ⟨n, f⟩ := hd
    simp only [List.map_cons, List.nodup_cons] at hnd
    calc applyFields (applyFields d ((n, f) :: tl)) ((n, f) :: tl)
        = applyFields (set_field (applyFields (set_field d n f) tl) n f) tl := rfl
      _ = applyFields (applyFields (set_field d n f) tl) tl := by
            rw [set_field_applyFields_absorb _ _ _ _ hnd.1]
      _ = applyFields (set_field d n f) tl := ih hnd.2 _

/-- Claim C9: the ephemeral-profile merge is idempotent — for every prior
overlay and every extraction result, applying `_merge_ephemeral_profile` with
`save_profile=true` to its own output (with the same extracted profile)
yields exactly the same overlay as merging once. -/
theorem mergeEphemeralProfile_idem (old : ProfDict) (e : ExtractedProfile) :
    mergeEphemeralProfile (mergeEphemeralProfile old e true) e true
      = mergeEphemeralProfile old e true := by
  have hnd : ((fieldsOf e).map Prod.fst).Nodup := by
    simp only [fieldsOf, List.map_cons, List.map_nil]
    decide
  simp only [mergeEphemeralProfile, Bool.not_true, Bool.false_eq_true, if_false]
  exact applyFields_idem _ hnd old

/-- Claim C10: the collection merge is append-only — for every prior
ephemeral collection (dict with a triples list, bare list, absent or
malformed), every extraction result and either save flag, the `"triples"`
list of the output of `_merge_ephemeral_collection` has the normalised prior
triples as a prefix in their original order; existing triples are never
removed, modified or reordered. -/
theorem mergeEphemeralCollection_append_only (old : CollVal) (extracted : ExtractedCollection)
    (save_collection : Bool) :
    normTriples old <+: (mergeEphemeralCollection old extracted save_collection).triples := by
  unfold mergeEphemeralCollection
  cases save_collection with
  | false => simp
  | true => simp

/-- Claim C2 (amended): `_decide_use_rag` honours an explicitly present
`use_rag` boolean exactly; when the router dict is present and non-empty but
carries no `use_rag` key, retrieval is enabled iff the (lowercased) input
contains one of the fixed trigger words; but when the router is entirely
absent or an empty dict, retrieval is enabled unconditionally (not via the
keyword heuristic). -/
theorem decideUseRag_gate (q : Str) :
    (∀ b hk, decideUseRag (.dict (some b) hk) q = b) ∧
    decideUseRag (.dict none true) q
      = ragTriggerWords.any (fun k => decide (k <:+: pyLower q)) ∧
    decideUseRag .absent q = true ∧
    decideUseRag (.dict none false) q = true := by
  refine ⟨?_, ?_, rfl, rfl⟩
  · intro b hk
    simp [decideUseRag, RouterArg.truthy]
  · simp only [decideUseRag, RouterArg.truthy]
    cases h : ragTriggerWords.any (fun k => decide (k <:+: pyLower q)) <;> simp [h]

/-- Claim C2 counterexample: with the router decision entirely absent and the
trigger-free input `"hi"`, the code enables retrieval (`True`), whereas the
claim requires retrieval to be disabled for input with no trigger word. -/
theorem decideUseRag_absent_counterexample :
    decideUseRag .absent "hi".toList = true ∧
    (ragTriggerWords.all fun k => !(decide (k <:+: pyLower "hi".toList))) = true := by
  exact ⟨rfl, by decide⟩

/-- Claim C4 (amended): with `save_profile` and `save_collection` both false,
`extract` is a no-op for dict-shaped priors regardless of `user_input`: a
present prior profile dict is returned unchanged and a present non-empty
(truthy) prior collection dict is returned unchanged (an absent or empty
prior collection is instead normalised to `{"triples": []}`, see the
counterexample). -/
theorem extract_noop (llm : Str → Except Str ExtractResult) (nowIso : Str) (st : ExtState)
    (hr : (st.router.map RouterDec.save_profile).getD false = false)
    (hc : (st.router.map RouterDec.save_collection).getD false = false)
    (p : ProfDict) (hp : st.ephemeral_profile = some p)
    (t : Option (List TripleR)) (k : Bool) (hcoll : st.ephemeral_collection = .pyDict t k)
    (htruthy : (CollVal.pyDict t k).truthy = true) :
    extract llm nowIso st = .ok ⟨p, st.ephemeral_collection,
      st.messages ++ [⟨"tool".toList,
        "[info_extractor] skip (save_profile=False, save_collection=False)".toList,
        nowIso, none⟩]⟩ := by
  simp only [extract, hr, hc, hcoll, hp, dictOfCollOrDefault, collOrDefault, htruthy,
    Bool.not_false, Bool.and_self, if_true, Option.getD_some, pyDictCopy]

/-- Claim C4 counterexample: with both save flags false and the prior
`ephemeral_collection` equal to the empty dict `{}`, the no-op branch of
`extract` returns `{"triples": []}`, which is not equal to the input value —
so the output does not equal the input for that field. -/
theorem extract_noop_counterexample :
    (extract (fun _ => .error []) []
        ⟨some "hi".toList, some ⟨false, false⟩, some [], .pyDict none false, []⟩).map
        ExtractOut.ephemeral_collection
      = .ok (.pyDict (some []) false) ∧
    CollVal.pyDict (some []) false ≠ CollVal.pyDict none false := ⟨rfl, by decide⟩

/-- Claim C4 witness. -/
theorem extract_noop_witness :
    extract (fun _ => .error []) []
        ⟨some "hi".toList, some ⟨false, false⟩, some [], .pyDict (some []) true, []⟩
      = .ok ⟨[], .pyDict (some []) true,
          [⟨"tool".toList,
            "[info_extractor] skip (save_profile=False, save_collection=False)".toList,
            [], none⟩]⟩ :=
  extract_noop (fun _ => .error []) []
    ⟨some "hi".toList, some ⟨false, false⟩, some [], .pyDict (some []) true, []⟩
    rfl rfl [] rfl (some []) true rfl rfl

/-- Claim C1 (amended): when extraction is requested (a save flag set, input
non-empty) and the structured-extraction call fails in any way, `extract`
catches the failure and returns without raising, with the prior profile dict
unchanged (or `{}` when absent), a present non-empty prior collection dict
unchanged, and a trace entry containing the error appended.  (A falsy prior
collection is normalised to `{"triples": []}` rather than kept — see the
counterexample.) -/
theorem extract_error_keeps_state (llm : Str → Except Str ExtractResult) (nowIso : Str)
    (st : ExtState) (e : Str)
    (hsave : ((st.router.map RouterDec.save_profile).getD false
        || (st.router.map RouterDec.save_collection).getD false) = true)
    (htext : pyStrip (st.user_input.getD []) ≠ [])
    (hllm : llm (pyStrip (st.user_input.getD [])) = .error e)
    (p : ProfDict) (hp : st.ephemeral_profile = some p)
    (t : Option (List TripleR)) (k : Bool) (hcoll : st.ephemeral_collection = .pyDict t k)
    (htruthy : (CollVal.pyDict t k).truthy = true) :
    extract llm nowIso st = .ok ⟨p, st.ephemeral_collection,
      st.messages ++ [⟨"tool".toList,
        "[info_extractor] error; keep previous state".toList, nowIso, some e⟩]⟩ := by
  have hnb : (!(st.router.map RouterDec.save_profile).getD false
      && !(st.router.map RouterDec.save_collection).getD false) = false := by
    cases hsp : (st.router.map RouterDec.save_profile).getD false <;>
      cases hsc : (st.router.map RouterDec.save_collection).getD false <;>
        simp_all
  simp only [extract, hnb, hllm, hcoll, hp, dictOfCollOrDefault, collOrDefault, htruthy,
    Bool.false_eq_true, if_false, Option.getD_some, pyDictCopy, if_neg htext]
  simp

/-- Claim C1 counterexample: with the prior `ephemeral_collection` equal to
the empty dict `{}` and a failing extraction call, the error branch of
`extract` returns `{"triples": []}`, which differs from the prior value — the
state is not returned unchanged on error. -/
theorem extract_error_counterexample :
    (extract (fun _ => .error "boom".toList) []
        ⟨some "hi".toList, some ⟨true, false⟩, some [], .pyDict none false, []⟩).map
        ExtractOut.ephemeral_collection
      = .ok (.pyDict (some []) false) ∧
    CollVal.pyDict (some []) false ≠ CollVal.pyDict none false := ⟨rfl, by decide⟩

/-- Claim C1 witness. -/
theorem extract_error_keeps_state_witness :
    extract (fun _ => .error "x".toList) []
        ⟨some "hi".toList, some ⟨true, false⟩, some [], .pyDict (some []) false, []⟩
      = .ok ⟨[], .pyDict (some []) false,
          [⟨"tool".toList, "[info_extractor] error; keep previous state".toList,
            [], some "x".toList⟩]⟩ :=
  extract_error_keeps_state (fun _ => .error "x".toList) []
    ⟨some "hi".toList, some ⟨true, false⟩, some [], .pyDict (some []) false, []⟩
    "x".toList rfl (by decide) rfl [] rfl (some []) false rfl rfl

theorem startedInfo_of_parse_none (parser : Str → Except Str Int) (nowT : Int) (now_iso : Str)
    (v : PyV) (hv : parse_iso parser v = none) :
    (startedInfo parser nowT now_iso v).2.1 = now_iso := by
  cases v <;> simp [startedInfo, hv]

/-- Claim C8 (amended): `orchestrate` never raises for states whose
`session_id` is a string or absent and whose `turn_count` is an integer or
absent, whatever the timestamp fields hold; a malformed (unparseable or
non-string) `started_at` is treated as absent and re-initialised to the
current time rather than propagating a parse error.  (For a non-string truthy
`session_id` or a non-numeric string `turn_count` the code does raise — see
the counterexample.) -/
theorem orchestrate_total (cfg : OrchConfig) (nowT : Int) (now_iso gen_id : Str)
    (parser : Str → Except Str Int) (st : OrchState)
    (hsid : st.session_id = .vNone ∨ ∃ s, st.session_id = .vStr s)
    (htc : st.turn_count = .vNone ∨ ∃ n, st.turn_count = .vInt n) :
    ∃ out, orchestrate cfg nowT now_iso gen_id parser st = .ok out ∧
      (parse_iso parser st.started_at = none → out.started_at = now_iso) := by
  obtain ⟨sid, sa, la, tc, msgs⟩ := st
  simp only at hsid htc
  have hsidres : ∃ sid0, (match pyOr sid (.vStr []) with
      | PyV.vStr s => Except.ok (pyStrip s)
      | _ => (Except.error "AttributeError: no attribute strip".toList : Except Str Str))
      = Except.ok sid0 := by
    rcases hsid with rfl | ⟨s, rfl⟩
    · exact ⟨[], rfl⟩
    · by_cases hs : s = []
      · subst hs; exact ⟨[], rfl⟩
      · refine ⟨pyStrip s, ?_⟩
        have hh : pyOr (.vStr s) (.vStr []) = .vStr s := by simp [pyOr, PyV.truthy, hs]
        rw [hh]
  have htcres : ∃ n0, pyIntCoerce (pyOr tc (.vInt 0)) = .ok n0 := by
    rcases htc with rfl | ⟨n, rfl⟩
    · exact ⟨0, rfl⟩
    · by_cases hn : n = 0
      · subst hn; exact ⟨0, rfl⟩
      · refine ⟨n, ?_⟩
        have hh : pyOr (.vInt n) (.vInt 0) = .vInt n := by simp [pyOr, PyV.truthy, hn]
        rw [hh]
        rfl
  obtain ⟨sid0, hsid0⟩ := hsidres
  obtain ⟨n0, hn0⟩ := htcres
  simp only [orchestrate, hsid0, hn0]
  exact ⟨_, rfl, fun hnone => startedInfo_of_parse_none parser nowT now_iso sa hnone⟩

/-- Claim C8 counterexample: with `turn_count` equal to the (truthy,
non-numeric) string `"abc"`, `int(state.get("turn_count") or 0)` raises a
`ValueError`, so `orchestrate` does have an exception path for arbitrary
field values. -/
theorem orchestrate_raises_counterexample :
    (orchestrate ⟨900, 128, 7200⟩ 0 [] [] (fun _ => .error [])
        ⟨.vStr "s".toList, .vNone, .vNone, .vStr "abc".toList, []⟩).toOption = none := rfl

/-- Claim C8 witness. -/
theorem orchestrate_total_witness :
    ∃ out, orchestrate ⟨900, 128, 7200⟩ 0 "n".toList [] (fun _ => .error [])
        ⟨.vStr "a".toList, .vStr "bad".toList, .vNone, .vNone, []⟩ = .ok out ∧
      (parse_iso (fun _ => .error []) (.vStr "bad".toList) = none →
        out.started_at = "n".toList) :=
  orchestrate_total ⟨900, 128, 7200⟩ 0 "n".toList [] (fun _ => .error [])
    ⟨.vStr "a".toList, .vStr "bad".toList, .vNone, .vNone, []⟩
    (.inr ⟨"a".toList, rfl⟩) (.inl rfl)

/-- Claim C3: for every accepted invocation, `end_session` is true iff the
post-increment `turn_count` has reached `max_turns` or the elapsed time since
the (parsed or re-initialised) `started_at` has reached
`max_duration_seconds`; and with `max_turns = 3` and no duration trigger, a
session whose output state is threaded back in reaches `end_session = true`
exactly on the third invocation and not before. -/
theorem orchestrate_end_session (cfg : OrchConfig) (nowT : Int) (now_iso gen_id : Str)
    (parser : Str → Except Str Int) :
    (∀ st out, orchestrate cfg nowT now_iso gen_id parser st = .ok out →
      (out.end_session = true ↔
        (cfg.max_turns ≤ out.turn_count ∨
          cfg.max_duration_sec ≤ nowT - (startedInfo parser nowT now_iso st.started_at).1))) ∧
    (cfg.max_turns = 3 → parser now_iso = .ok nowT → now_iso ≠ [] →
      0 < cfg.max_duration_sec →
      ∃ o1 o2 o3,
        orchestrate cfg nowT now_iso gen_id parser
          ⟨.vStr "s".toList, .vNone, .vNone, .vNone, []⟩ = .ok o1 ∧
        orchestrate cfg nowT now_iso gen_id parser
          ⟨.vStr o1.session_id, .vStr o1.started_at, .vStr o1.last_activity_at,
            .vInt o1.turn_count, o1.messages⟩ = .ok o2 ∧
        orchestrate cfg nowT now_iso gen_id parser
          ⟨.vStr o2.session_id, .vStr o2.started_at, .vStr o2.last_activity_at,
            .vInt o2.turn_count, o2.messages⟩ = .ok o3 ∧
        o1.end_session = false ∧ o2.end_session = false ∧ o3.end_session = true) := by
  constructor
  · intro st out h
    simp only [orchestrate] at h
    split at h
    · exact absurd h (by simp)
    · split at h
      · exact absurd h (by simp)
      · cases h
        rename_i sidRes sid0 heq1 x tc0 heq2
        by_cases hA : cfg.max_turns ≤ tc0 + 1 <;>
          by_cases hB : cfg.max_duration_sec ≤
              nowT - (startedInfo parser nowT now_iso st.started_at).1 <;>
            simp [hA, hB]
  · intro hmt hp hni hd
    obtain ⟨it, mt, md⟩ := cfg
    simp only at hmt hd
    subst hmt
    have hsub : nowT - nowT = 0 := sub_self nowT
    have hmd : ¬ (md ≤ (0 : Int)) := not_le.mpr hd
    have hpi : parse_iso parser (.vStr now_iso) = some nowT := by
      simp [parse_iso, PyV.truthy, hni, hp, Except.toOption]
    have h1 : orchestrate ⟨it, 3, md⟩ nowT now_iso gen_id parser
        ⟨.vStr "s".toList, .vNone, .vNone, .vNone, []⟩
        = .ok ⟨"s".toList, now_iso, now_iso, 1, false,
            [⟨"tool".toList, "[session_orchestrator] started_at initialized".toList,
              now_iso, none⟩,
             ⟨"tool".toList, "[session_orchestrator] tick".toList, now_iso, none⟩]⟩ := by
      simp [orchestrate, startedInfo, parse_iso, pyOr, PyV.truthy, pyIntCoerce, hsub, hmd]
      exact ⟨rfl, rfl⟩
    have h2 : orchestrate ⟨it, 3, md⟩ nowT now_iso gen_id parser
        ⟨.vStr "s".toList, .vStr now_iso, .vStr now_iso, .vInt 1,
          [⟨"tool".toList, "[session_orchestrator] started_at initialized".toList,
            now_iso, none⟩,
           ⟨"tool".toList, "[session_orchestrator] tick".toList, now_iso, none⟩]⟩
        = .ok ⟨"s".toList, now_iso, now_iso, 2, false,
            [⟨"tool".toList, "[session_orchestrator] started_at initialized".toList,
              now_iso, none⟩,
             ⟨"tool".toList, "[session_orchestrator] tick".toList, now_iso, none⟩,
             ⟨"tool".toList, "[session_orchestrator] tick".toList, now_iso, none⟩]⟩ := by
      simp [orchestrate, startedInfo, hpi, pyOr, PyV.truthy, pyIntCoerce, hsub, hmd, hni]
      exact ⟨rfl, rfl⟩
    have h3 : orchestrate ⟨it, 3, md⟩ nowT now_iso gen_id parser
        ⟨.vStr "s".toList, .vStr now_iso, .vStr now_iso, .vInt 2,
          [⟨"tool".toList, "[session_orchestrator] started_at initialized".toList,
            now_iso, none⟩,
           ⟨"tool".toList, "[session_orchestrator] tick".toList, now_iso, none⟩,
           ⟨"tool".toList, "[session_orchestrator] tick".toList, now_iso, none⟩]⟩
        = .ok ⟨"s".toList, now_iso, now_iso, 3, true,
            [⟨"tool".toList, "[session_orchestrator] started_at initialized".toList,
              now_iso, none⟩,
             ⟨"tool".toList, "[session_orchestrator] tick".toList, now_iso, none⟩,
             ⟨"tool".toList, "[session_orchestrator] tick".toList, now_iso, none⟩,
             ⟨"tool".toList, "[session_orchestrator] end_session=True".toList,
               now_iso, none⟩]⟩ := by
      simp [orchestrate, startedInfo, hpi, pyOr, PyV.truthy, pyIntCoerce, hsub, hmd, hni]
      exact ⟨rfl, rfl⟩
    exact ⟨_, _, _, h1, h2, h3, rfl, rfl, rfl⟩

/-- Claim C3 witness. -/
theorem orchestrate_end_session_witness :
    ∃ o1 o2 o3,
      orchestrate ⟨900, 3, 7200⟩ 0 "n".toList []
          (fun s => if s = "n".toList then Except.ok 0 else Except.error [])
          ⟨.vStr "s".toList, .vNone, .vNone, .vNone, []⟩ = .ok o1 ∧
      orchestrate ⟨900, 3, 7200⟩ 0 "n".toList []
          (fun s => if s = "n".toList then Except.ok 0 else Except.error [])
          ⟨.vStr o1.session_id, .vStr o1.started_at, .vStr o1.last_activity_at,
            .vInt o1.turn_count, o1.messages⟩ = .ok o2 ∧
      orchestrate ⟨900, 3, 7200⟩ 0 "n".toList []
          (fun s => if s = "n".toList then Except.ok 0 else Except.error [])
          ⟨.vStr o2.session_id, .vStr o2.started_at, .vStr o2.last_activity_at,
            .vInt o2.turn_count, o2.messages⟩ = .ok o3 ∧
      o1.end_session = false ∧ o2.end_session = false ∧ o3.end_session = true :=
  (orchestrate_end_session ⟨900, 3, 7200⟩ 0 "n".toList []
    (fun s => if s = "n".toList then Except.ok 0 else Except.error [])).2
    rfl rfl (by decide) (by decide)

theorem simKeyLe_trans (a b c : DocResult) :
    simKeyLe a b = true → simKeyLe b c = true → simKeyLe a c = true := by
  cases ha : a.similarity <;> cases hb : b.similarity <;> cases hc : c.similarity <;>
    simp [simKeyLe, ha, hb, hc]
  exact fun h1 h2 => le_trans h2 h1

theorem simKeyLe_total (a b : DocResult) : (simKeyLe a b || simKeyLe b a) = true := by
  cases ha : a.similarity <;> cases hb : b.similarity <;> simp [simKeyLe, ha, hb]
  exact le_total _ _

theorem simKeyLe_scoreBefore (a b : DocResult) (h : simKeyLe a b = true) :
    scoreBefore a.similarity b.similarity := by
  cases ha : a.similarity <;> cases hb : b.similarity <;>
    simp_all [simKeyLe, ha, hb, scoreBefore]

/-- Claim C7: for every list of rows returned by the document store
(including rows with no similarity value), `_hybrid_search_documents`
succeeds and returns the rows re-sorted by similarity descending with
unscored documents last (`scoreBefore` pairwise on the snippet scores), and
nothing is lost or duplicated: the output scores are a permutation of the
rows' similarities — in particular the re-sort itself never fails. -/
theorem hybridSearch_resort (env : SearchEnv) (q : Str) (prof : Option ProfCtx)
    (top_k : Nat) (rows : List Row)
    (hq : pyStrip q ≠ [])
    (hemb : env.embed (pyStrip q) = .ok ())
    (hdb : env.db (regionFilterOf prof) top_k = .ok rows) :
    hybridSearchDocuments env q prof top_k
      = .ok ((sortResults (rows.map resultOfRow)).map snippetOfResult,
          extract_keywords (pyStrip q) 8) ∧
    ((sortResults (rows.map resultOfRow)).map snippetOfResult).Pairwise
      (fun a b => scoreBefore a.score b.score) ∧
    (((sortResults (rows.map resultOfRow)).map snippetOfResult).map Snippet.score).Perm
      (rows.map Row.similarity) := by
  refine ⟨?_, ?_, ?_⟩
  · simp [hybridSearchDocuments, hq, hemb, hdb]
  · have hs := List.sorted_mergeSort simKeyLe_trans simKeyLe_total (rows.map resultOfRow)
    exact hs.map snippetOfResult (fun a b hab => simKeyLe_scoreBefore a b hab)
  · have hperm : (sortResults (rows.map resultOfRow)).Perm (rows.map resultOfRow) :=
      List.mergeSort_perm _ _
    have h1 : (((sortResults (rows.map resultOfRow)).map snippetOfResult).map Snippet.score)
        = (sortResults (rows.map resultOfRow)).map (fun r => (snippetOfResult r).score) := by
      simp only [List.map_map]
      rfl
    have h2 : (rows.map resultOfRow).map (fun r => (snippetOfResult r).score)
        = rows.map Row.similarity := by
      simp only [List.map_map]
      rfl
    rw [h1, ← h2]
    exact hperm.map _

/-- Claim C7 witness. -/
theorem hybridSearch_resort_witness :
    hybridSearchDocuments
        ⟨fun _ => .ok (), fun _ _ => .ok [⟨1, none, none, none, none, none, none⟩,
            ⟨2, some "t".toList, none, none, none, none, some (1/2)⟩]⟩
        "지원".toList none 8
      = .ok ((sortResults ([(⟨1, none, none, none, none, none, none⟩ : Row),
            ⟨2, some "t".toList, none, none, none, none, some (1/2)⟩].map resultOfRow)).map
          snippetOfResult, extract_keywords (pyStrip "지원".toList) 8) ∧
    ((sortResults ([(⟨1, none, none, none, none, none, none⟩ : Row),
        ⟨2, some "t".toList, none, none, none, none, some (1/2)⟩].map resultOfRow)).map
        snippetOfResult).Pairwise (fun a b => scoreBefore a.score b.score) ∧
    (((sortResults ([(⟨1, none, none, none, none, none, none⟩ : Row),
        ⟨2, some "t".toList, none, none, none, none, some (1/2)⟩].map resultOfRow)).map
        snippetOfResult).map Snippet.score).Perm
      ([(⟨1, none, none, none, none, none, none⟩ : Row),
        ⟨2, some "t".toList, none, none, none, none, some (1/2)⟩].map Row.similarity) :=
  hybridSearch_resort
    ⟨fun _ => .ok (), fun _ _ => .ok [⟨1, none, none, none, none, none, none⟩,
        ⟨2, some "t".toList, none, none, none, none, some (1/2)⟩]⟩
    "지원".toList none 8
    [⟨1, none, none, none, none, none, none⟩,
      ⟨2, some "t".toList, none, none, none, none, some (1/2)⟩]
    (by decide) rfl rfl

theorem hybrid_mem_of_ok (env : SearchEnv) (q : Str) (prof : Option ProfCtx) (k : Nat)
    (snips : List Snippet) (kws : List Str)
    (h : hybridSearchDocuments env q prof k = .ok (snips, kws)) :
    ∀ s ∈ snips, ∃ rows, env.db (regionFilterOf prof) k = .ok rows ∧
      ∃ row ∈ rows, s = snippetOfResult (resultOfRow row) := by
  intro s hs
  unfold hybridSearchDocuments at h
  by_cases hq : pyStrip q = []
  · rw [if_pos hq] at h
    simp only [Except.ok.injEq, Prod.mk.injEq] at h
    obtain ⟨h1, h2⟩ := h
    subst h1
    simp at hs
  · rw [if_neg hq] at h
    dsimp only at h
    cases hemb : env.embed (pyStrip q) with
    | error e =>
      rw [hemb] at h
      dsimp only at h
      simp only [Except.ok.injEq, Prod.mk.injEq] at h
      obtain ⟨h1, h2⟩ := h
      subst h1
      simp at hs
    | ok u =>
      cases u
      rw [hemb] at h
      dsimp only at h
      cases hdb : env.db (regionFilterOf prof) k with
      | error e => rw [hdb] at h; exact absurd h (by simp)
      | ok rows =>
        rw [hdb] at h
        simp only [Except.ok.injEq, Prod.mk.injEq] at h
        obtain ⟨h1, h2⟩ := h
        subst h1
        refine ⟨rows, rfl, ?_⟩
        obtain ⟨res, hres, rfl⟩ := List.mem_map.mp hs
        have hres' : res ∈ rows.map resultOfRow :=
          ((List.mergeSort_perm (rows.map resultOfRow) simKeyLe).mem_iff).mp hres
        obtain ⟨row, hrow, rfl⟩ := List.mem_map.mp hres'
        exact ⟨row, hrow, rfl⟩

theorem planRagDocs_mem (env : PlanEnv) (st : PlanState) (s : Snippet)
    (hs : s ∈ (planRagDocs env st).1) :
    ∃ rows, env.search.db (regionFilterOf (planMergedProfile env st)) 8 = .ok rows ∧
      ∃ row ∈ rows, s = snippetOfResult (resultOfRow row) := by
  unfold planRagDocs at hs
  by_cases hc : (decideUseRag st.router (st.user_input.getD []) = true)
      ∧ st.user_input.getD [] ≠ []
  · rw [if_pos hc] at hs
    cases hh : hybridSearchDocuments env.search (st.user_input.getD [])
        (planMergedProfile env st) 8 with
    | ok dk =>
      rw [hh] at hs
      obtain ⟨snips, kws⟩ := dk
      exact hybrid_mem_of_ok _ _ _ _ _ _ hh s hs
    | error e => rw [hh] at hs; simp at hs
  · rw [if_neg hc] at hs
    simp at hs

/-- Claim C5: whenever the session is ending this turn or the user text
contains one of the fixed save-intent words (저장/보관/기록), `plan` appends
exactly one synthetic advisory snippet — `doc_id =
"system:conversation_persist"`, score 1 (maximal, given that store
similarities are cosine values ≤ 1) — after any retrieved documents in
`rag_snippets`, regardless of whether retrieval was otherwise enabled; and
when neither condition holds no such snippet is appended. -/
theorem plan_save_notice (env : PlanEnv) (st : PlanState)
    (hbound : ∀ rf k rows, env.search.db rf k = .ok rows →
        ∀ r ∈ rows, ∀ x, r.similarity = some x → x ≤ 1) :
    ((st.end_session = true ∨ ∃ w ∈ saveKeywords, w <:+: st.user_input.getD []) →
      (plan env st).rag_snippets = (planRagDocs env st).1 ++ [persistSnippet] ∧
      ((plan env st).rag_snippets.filter
          (fun s => decide (s.doc_id
            = DocId.sysId "system:conversation_persist".toList))).length = 1) ∧
    (¬ (st.end_session = true ∨ ∃ w ∈ saveKeywords, w <:+: st.user_input.getD []) →
      (plan env st).rag_snippets = (planRagDocs env st).1) ∧
    persistSnippet.doc_id = DocId.sysId "system:conversation_persist".toList ∧
    persistSnippet.score = some 1 ∧
    (∀ s ∈ (planRagDocs env st).1, ∀ x, s.score = some x → x ≤ 1) := by
  have hscore : ∀ s ∈ (planRagDocs env st).1, ∀ x, s.score = some x → x ≤ 1 := by
    intro s hs x hx
    obtain ⟨rows, hdb, row, hrow, rfl⟩ := planRagDocs_mem env st s hs
    exact hbound _ _ rows hdb row hrow x hx
  have hdbid : ∀ s ∈ (planRagDocs env st).1,
      (decide (s.doc_id = DocId.sysId "system:conversation_persist".toList)) = false := by
    intro s hs
    obtain ⟨rows, hdb, row, hrow, rfl⟩ := planRagDocs_mem env st s hs
    simp [snippetOfResult]
  have hsnips : (plan env st).rag_snippets =
      if (st.end_session || saveKeywords.any fun k => decide (k <:+: st.user_input.getD []))
      then (planRagDocs env st).1 ++ [persistSnippet] else (planRagDocs env st).1 := rfl
  have hcond : ((st.end_session
        || saveKeywords.any fun k => decide (k <:+: st.user_input.getD [])) = true)
      ↔ (st.end_session = true ∨ ∃ w ∈ saveKeywords, w <:+: st.user_input.getD []) := by
    simp [List.any_eq_true]
  refine ⟨?_, ?_, rfl, rfl, hscore⟩
  · intro hp
    have hb := hcond.mpr hp
    rw [hsnips, if_pos hb]
    refine ⟨rfl, ?_⟩
    rw [List.filter_append]
    have hnil : (planRagDocs env st).1.filter
        (fun s => decide (s.doc_id
          = DocId.sysId "system:conversation_persist".toList)) = [] := by
      rw [List.filter_eq_nil_iff]
      intro a ha
      simp only [hdbid a ha]
      simp
    rw [hnil]
    rfl
  · intro hp
    have hb : ¬ ((st.end_session
        || saveKeywords.any fun k => decide (k <:+: st.user_input.getD [])) = true) :=
      fun hh => hp (hcond.mp hh)
    rw [hsnips, if_neg hb]

/-- Claim C5 witness. -/
theorem plan_save_notice_witness :
    (plan
        ⟨⟨fun _ => .ok (), fun _ _ => .ok []⟩, fun _ => .ok none, fun _ => .ok none,
          fun _ _ => none, fun _ _ => none⟩
        ⟨none, some "hi".toList, .dict (some false) false, none, none, true⟩).rag_snippets
      = (planRagDocs
          ⟨⟨fun _ => .ok (), fun _ _ => .ok []⟩, fun _ => .ok none, fun _ => .ok none,
            fun _ _ => none, fun _ _ => none⟩
          ⟨none, some "hi".toList, .dict (some false) false, none, none, true⟩).1
        ++ [persistSnippet] ∧
    ((plan
        ⟨⟨fun _ => .ok (), fun _ _ => .ok []⟩, fun _ => .ok none, fun _ => .ok none,
          fun _ _ => none, fun _ _ => none⟩
        ⟨none, some "hi".toList, .dict (some false) false, none, none, true⟩).rag_snippets.filter
        (fun s => decide (s.doc_id
          = DocId.sysId "system:conversation_persist".toList))).length = 1 :=
  (plan_save_notice
    ⟨⟨fun _ => .ok (), fun _ _ => .ok []⟩, fun _ => .ok none, fun _ => .ok none,
      fun _ _ => none, fun _ _ => none⟩
    ⟨none, some "hi".toList, .dict (some false) false, none, none, true⟩
    (by
      intro rf k rows h
      simp only [Except.ok.injEq] at h
      subst h
      intro r hr
      simp at hr)).1 (Or.inl rfl)

theorem pre_takeWhile_of_all {p : Char → Bool} :
    ∀ {l m : Str}, l <+: m → (∀ c ∈ l, p c = true) → l <+: m.takeWhile p := by
  intro l
  induction l with
  | nil => intro m _ _; exact List.nil_prefix
  | cons a l' ih =>
    intro m h hp
    cases m with
    | nil => simp at h
    | cons b m' =>
      rw [List.cons_prefix_cons] at h
      obtain ⟨rfl, h'⟩ := h
      rw [List.takeWhile_cons_of_pos (hp a (List.mem_cons_self _ _))]
      exact List.cons_prefix_cons.mpr ⟨rfl, ih h' (fun c hc => hp c (List.mem_cons_of_mem _ hc))⟩

theorem inf_split_takeWhile_dropWhile {p : Char → Bool} :
    ∀ {l m : Str}, (∀ c ∈ l, p c = true) → l <:+: m →
      l <:+: m.takeWhile p ∨ l <:+: m.dropWhile p := by
  intro l m
  induction m with
  | nil =>
    intro _ h
    exact Or.inl (by simpa using h)
  | cons c m' ih =>
    intro hp h
    cases hw : p c with
    | false =>
      rw [List.dropWhile_cons_of_neg (by simp [hw])]
      exact Or.inr h
    | true =>
      rcases List.infix_cons_iff.mp h with hpre | hinf
      · exact Or.inl ((pre_takeWhile_of_all hpre hp).isInfix)
      · rcases ih hp hinf with hl | hr
        · rw [List.takeWhile_cons_of_pos hw]
          exact Or.inl ( List.infix_cons hl)
        · rw [List.dropWhile_cons_of_pos hw]
          exact Or.inr hr

theorem inf_dropWhile_of_none {p : Char → Bool} :
    ∀ {l m : Str}, (∀ c ∈ l, p c = false) → l ≠ [] → l <:+: m → l <:+: m.dropWhile p := by
  intro l m
  induction m with
  | nil =>
    intro _ hne h
    exact absurd ( List.infix_nil.mp h) hne
  | cons c m' ih =>
    intro hp hne h
    cases hw : p c with
    | false =>
      rw [List.dropWhile_cons_of_neg (by simp [hw])]
      exact h
    | true =>
      rcases List.infix_cons_iff.mp h with hpre | hinf
      · cases l with
        | nil => exact absurd rfl hne
        | cons a l' =>
          rw [List.cons_prefix_cons] at hpre
          obtain ⟨rfl, _⟩ := hpre
          exact absurd (hp a (List.mem_cons_self _ _)) (by simp [hw])
      · rw [List.dropWhile_cons_of_pos hw]
        exact ih hp hne hinf

theorem trigger_in_pyStrip {l s : Str}
    (hsp : ∀ c ∈ l, pyIsSpace c = false) (hne : l ≠ []) (h : l <:+: s) :
    l <:+: pyStrip s := by
  have h1 : l <:+: s.dropWhile pyIsSpace := inf_dropWhile_of_none hsp hne h
  have h2 : l.reverse <:+: (s.dropWhile pyIsSpace).reverse := by
    rw [ List.reverse_infix]
    exact h1
  have hsp' : ∀ c ∈ l.reverse, pyIsSpace c = false := by
    intro c hc; exact hsp c (List.mem_reverse.mp hc)
  have hne' : l.reverse ≠ [] := by simpa using hne
  have h3 : l.reverse <:+: ((s.dropWhile pyIsSpace).reverse).dropWhile pyIsSpace :=
    inf_dropWhile_of_none hsp' hne' h2
  have h4 : l.reverse <:+:
      ((((s.dropWhile pyIsSpace).reverse).dropWhile pyIsSpace).reverse).reverse := by
    rwa [List.reverse_reverse]
  exact List.reverse_infix.mp h4

theorem tokenizeAux_covers (l : Str) (hne : l ≠ []) (hw : ∀ c ∈ l, isWordChar c = true) :
    ∀ fuel, ∀ m : Str, m.length ≤ fuel → l <:+: m →
      ∃ tok ∈ tokenizeAux fuel m, l <:+: tok := by
  intro fuel
  induction fuel with
  | zero =>
    intro m hm hinf
    have hnil : m = [] := List.length_eq_zero.mp (Nat.le_zero.mp hm)
    subst hnil
    exact absurd ( List.infix_nil.mp hinf) hne
  | succ fuel ih =>
    intro m hm hinf
    cases m with
    | nil => exact absurd ( List.infix_nil.mp hinf) hne
    | cons c rest =>
      cases hwc : isWordChar c with
      | false =>
        have hred : tokenizeAux (fuel + 1) (c :: rest) = tokenizeAux fuel rest := by
          simp [tokenizeAux, hwc]
        rw [hred]
        rcases List.infix_cons_iff.mp hinf with hpre | hinf'
        · cases l with
          | nil => exact absurd rfl hne
          | cons a l' =>
            rw [List.cons_prefix_cons] at hpre
            obtain ⟨rfl, _⟩ := hpre
            exact absurd (hw a (List.mem_cons_self _ _)) (by simp [hwc])
        · exact ih rest (by simpa using Nat.le_of_succ_le_succ (by simpa using hm)) hinf'
      | true =>
        have hred : tokenizeAux (fuel + 1) (c :: rest)
            = (c :: rest.takeWhile isWordChar)
              :: tokenizeAux fuel (rest.dropWhile isWordChar) := by
          simp [tokenizeAux, hwc]
        rw [hred]
        rcases inf_split_takeWhile_dropWhile hw hinf with hl | hr
        · refine ⟨c :: rest.takeWhile isWordChar, List.mem_cons_self _ _, ?_⟩
          rwa [List.takeWhile_cons_of_pos hwc] at hl
        · rw [List.dropWhile_cons_of_pos hwc] at hr
          have hsuf : List.dropWhile isWordChar rest <:+ rest :=
            List.dropWhile_suffix isWordChar
          have hlen : (rest.dropWhile isWordChar).length ≤ fuel := by
            have hl1 := hsuf.length_le
            have hl2 : rest.length + 1 ≤ fuel + 1 := by simpa using hm
            omega
          obtain ⟨tok, htok, hti⟩ := ih _ hlen hr
          exact ⟨tok, List.mem_cons_of_mem _ htok, hti⟩

theorem kwLoop_ne_nil_of_out (maxK : Nat) :
    ∀ ts seen out, out ≠ [] → kwLoop maxK ts seen out ≠ [] := by
  intro ts
  induction ts with
  | nil => intro seen out h; simpa [kwLoop]
  | cons t ts ih =>
    intro seen out h
    simp only [kwLoop]
    by_cases h1 : 2 ≤ (pyLower t).length ∧ pyLower t ∉ kwStop
    · rw [if_pos h1]
      by_cases h2 : pyLower t ∉ seen
      · rw [if_pos h2]
        by_cases h3 : maxK ≤ (out ++ [pyLower t]).length
        · rw [if_pos h3]; simp
        · rw [if_neg h3]; exact ih _ _ (by simp)
      · rw [if_neg h2]; exact ih _ _ h
    · rw [if_neg h1]; exact ih _ _ h

theorem kwLoop_ne_nil (maxK : Nat) :
    ∀ ts, (∃ t ∈ ts, 2 ≤ (pyLower t).length ∧ pyLower t ∉ kwStop) →
      kwLoop maxK ts [] [] ≠ [] := by
  intro ts
  induction ts with
  | nil => intro h; obtain ⟨t, ht, _⟩ := h; simp at ht
  | cons t ts ih =>
    intro h
    simp only [kwLoop]
    by_cases h1 : 2 ≤ (pyLower t).length ∧ pyLower t ∉ kwStop
    · rw [if_pos h1]
      have h2 : pyLower t ∉ ([] : List Str) := by simp
      rw [if_pos h2]
      by_cases h3 : maxK ≤ (([] : List Str) ++ [pyLower t]).length
      · rw [if_pos h3]; simp
      · rw [if_neg h3]; exact kwLoop_ne_nil_of_out maxK ts _ _ (by simp)
    · rw [if_neg h1]
      apply ih
      obtain ⟨t', ht', hg⟩ := h
      rcases List.mem_cons.mp ht' with rfl | hmem
      · exact absurd hg h1
      · exact ⟨t', hmem, hg⟩

theorem extract_keywords_ne_nil (trig text : Str) (maxK : Nat)
    (hne : trig ≠ []) (h2 : 2 ≤ trig.length) (hw : ∀ c ∈ trig, isWordChar c = true)
    (hstop : ∀ s ∈ kwStop, ¬ (pyLower trig <:+: s))
    (hinf : trig <:+: text) : extract_keywords text maxK ≠ [] := by
  have htext : text ≠ [] := by
    intro h; rw [h] at hinf; exact hne ( List.infix_nil.mp hinf)
  unfold extract_keywords
  rw [if_neg htext]
  apply kwLoop_ne_nil
  obtain ⟨tok, htok, hti⟩ := tokenizeAux_covers trig hne hw text.length text le_rfl hinf
  refine ⟨tok, htok, ?_, ?_⟩
  · have hlen := hti.length_le
    simp only [pyLower, List.length_map]
    omega
  · intro hmem
    have hmap : pyLower trig <:+: pyLower tok := hti.map Char.toLower
    exact hstop _ hmem hmap

/-- Claim C6: for a non-empty query containing a retrieval trigger word, with
retrieval enabled, if the embedding computation raises then the planner
degrades gracefully: the pre-injection retrieval result is `([], keywords)`
with `retrieval.keywords` still the extracted keywords, the keyword list is
non-empty, and no exception propagates (`plan` is total and returns this
state). -/
theorem plan_embed_failure (env : PlanEnv) (st : PlanState) (err : Str) (w : Str)
    (hw : w ∈ ragTriggerWords)
    (hinf : w <:+: st.user_input.getD [])
    (hrag : decideUseRag st.router (st.user_input.getD []) = true)
    (hemb : ∀ s, env.search.embed s = .error err) :
    planRagDocs env st = ([], extract_keywords (pyStrip (st.user_input.getD [])) 8) ∧
    (plan env st).keywords = extract_keywords (pyStrip (st.user_input.getD [])) 8 ∧
    extract_keywords (pyStrip (st.user_input.getD [])) 8 ≠ [] := by
  have hfacts : ∀ w' ∈ ragTriggerWords, w' ≠ [] ∧ 2 ≤ w'.length ∧
      (∀ c ∈ w', isWordChar c = true) ∧ (∀ c ∈ w', pyIsSpace c = false) ∧
      (∀ s ∈ kwStop, ¬ (pyLower w' <:+: s)) := by decide
  obtain ⟨hne, h2, hword, hnospace, hstop⟩ := hfacts w hw
  have hq : st.user_input.getD [] ≠ [] := by
    intro h; rw [h] at hinf; exact hne ( List.infix_nil.mp hinf)
  have hqs : w <:+: pyStrip (st.user_input.getD []) := trigger_in_pyStrip hnospace hne hinf
  have hqsne : pyStrip (st.user_input.getD []) ≠ [] := by
    intro h; rw [h] at hqs; exact hne ( List.infix_nil.mp hqs)
  have hkw : extract_keywords (pyStrip (st.user_input.getD [])) 8 ≠ [] :=
    extract_keywords_ne_nil w _ 8 hne h2 hword hstop hqs
  have hhyb : hybridSearchDocuments env.search (st.user_input.getD [])
      (planMergedProfile env st) 8
      = .ok ([], extract_keywords (pyStrip (st.user_input.getD [])) 8) := by
    unfold hybridSearchDocuments
    rw [if_neg hqsne]
    dsimp only
    rw [hemb (pyStrip (st.user_input.getD []))]
  have hpre : planRagDocs env st
      = ([], extract_keywords (pyStrip (st.user_input.getD [])) 8) := by
    unfold planRagDocs
    rw [if_pos ⟨hrag, hq⟩, hhyb]
  refine ⟨hpre, ?_, hkw⟩
  have hkeq : (plan env st).keywords = (planRagDocs env st).2 := rfl
  rw [hkeq, hpre]

/-- Claim C6 witness. -/
theorem plan_embed_failure_witness :
    planRagDocs
        ⟨⟨fun _ => .error "E".toList, fun _ _ => .ok []⟩, fun _ => .ok none, fun _ => .ok none,
          fun _ _ => none, fun _ _ => none⟩
        ⟨none, some "지원 대상인가요".toList, .dict (some true) false, none, none, false⟩
      = ([], extract_keywords (pyStrip ((some "지원 대상인가요".toList).getD [])) 8) ∧
    (plan
        ⟨⟨fun _ => .error "E".toList, fun _ _ => .ok []⟩, fun _ => .ok none, fun _ => .ok none,
          fun _ _ => none, fun _ _ => none⟩
        ⟨none, some "지원 대상인가요".toList, .dict (some true) false, none, none,
          false⟩).keywords
      = extract_keywords (pyStrip ((some "지원 대상인가요".toList).getD [])) 8 ∧
    extract_keywords (pyStrip ((some "지원 대상인가요".toList).getD [])) 8 ≠ [] :=
  plan_embed_failure
    ⟨⟨fun _ => .error "E".toList, fun _ _ => .ok []⟩, fun _ => .ok none, fun _ => .ok none,
      fun _ _ => none, fun _ _ => none⟩
    ⟨none, some "지원 대상인가요".toList, .dict (some true) false, none, none, false⟩
    "E".toList "지원".toList (by decide) (by decide) rfl (fun _ => rfl)

end Poly
